import Mathlib

/-!
Verification of the libsodium-type-generator repository (src/src/index.ts).

The TypeScript source is shallowly embedded: JavaScript strings are modelled
as lists of characters (`Str`), the string methods `startsWith` and `includes`
as the Boolean functions `strStartsWith` and `strIncludes`, and the JavaScript
string comparison operators used by the sort comparators as the lexicographic
order `strLt`.  Stateful parts (the `TypeGenerator` instance fields and the
in-place mutation of symbol objects) are modelled by explicit state passing.
-/

namespace LibsodiumTypeGenerator

/-- A JavaScript string, modelled as its sequence of characters. -/
abbrev Str := List Char

/-- Coerce a Lean string literal into the `Str` model. -/
def S (s : String) : Str := s.data

/-- Model of JavaScript `s.startsWith(p)`. -/
def strStartsWith : Str → Str → Bool
  | _, [] => true
  | [], _ :: _ => false
  | c :: cs, p :: ps => c == p && strStartsWith cs ps

/-- Model of JavaScript `s.includes(p)`: some suffix of `s` starts with `p`. -/
def strIncludes : Str → Str → Bool
  | [], p => strStartsWith [] p
  | c :: cs, p => strStartsWith (c :: cs) p || strIncludes cs p

/-- Model of the JavaScript string comparison `a < b` (lexicographic on code
units; a proper prefix is smaller). -/
def strLt : Str → Str → Bool
  | [], [] => false
  | [], _ :: _ => true
  | _ :: _, [] => false
  | a :: as, b :: bs => if a < b then true else if b < a then false else strLt as bs

/-- Model of JavaScript `s.toLowerCase()` (the catalog names are ASCII, where
per-character lowering agrees with the JavaScript method). -/
def strToLower (s : Str) : Str := s.map Char.toLower

theorem strStartsWith_nil_pat (s : Str) : strStartsWith s [] = true := by
  cases s <;> rfl

theorem strStartsWith_append (p s : Str) : strStartsWith (p ++ s) p = true := by
  induction p with
  | nil => exact strStartsWith_nil_pat s
  | cons c cs ih => simp [strStartsWith, ih]

theorem exists_of_strStartsWith {s p : Str} (h : strStartsWith s p = true) :
    ∃ t, s = p ++ t := by
  induction p generalizing s with
  | nil => exact ⟨s, rfl⟩
  | cons c cs ih =>
    cases s with
    | nil => simp [strStartsWith] at h
    | cons d ds =>
      simp only [strStartsWith, Bool.and_eq_true, beq_iff_eq] at h
      obtain ⟨t, ht⟩ := ih h.2
      exact ⟨t, by simp [h.1, ht]⟩

theorem strStartsWith_comparable {s p q : Str} (hp : strStartsWith s p = true)
    (hq : strStartsWith s q = true) :
    strStartsWith p q = true ∨ strStartsWith q p = true := by
  induction s generalizing p q with
  | nil =>
    cases p with
    | nil => exact Or.inr (strStartsWith_nil_pat q)
    | cons c cs => simp [strStartsWith] at hp
  | cons d ds ih =>
    cases p with
    | nil => exact Or.inr (strStartsWith_nil_pat q)
    | cons c cs =>
      cases q with
      | nil => exact Or.inl (strStartsWith_nil_pat (c :: cs))
      | cons e es =>
        simp only [strStartsWith, Bool.and_eq_true, beq_iff_eq] at hp hq
        have hce : c = e := hp.1.symm.trans hq.1
        rcases ih hp.2 hq.2 with h | h
        · exact Or.inl (by simp [strStartsWith, hce, h])
        · exact Or.inr (by simp [strStartsWith, hce, h])

theorem strStartsWith_false_of {s p q : Str} (hp : strStartsWith s p = true)
    (h1 : strStartsWith p q = false) (h2 : strStartsWith q p = false) :
    strStartsWith s q = false := by
  cases hsq : strStartsWith s q with
  | false => rfl
  | true =>
    rcases strStartsWith_comparable hp hsq with h | h
    · rw [h1] at h; exact absurd h (by simp)
    · rw [h2] at h; exact absurd h (by simp)

theorem strIncludes_of_strStartsWith {s p : Str} (h : strStartsWith s p = true) :
    strIncludes s p = true := by
  cases s <;> simp [strIncludes, h]

theorem strIncludes_intro (u p w : Str) : strIncludes (u ++ (p ++ w)) p = true := by
  induction u with
  | nil => exact strIncludes_of_strStartsWith (strStartsWith_append p w)
  | cons c cs ih => simp [strIncludes, ih]

theorem strIncludes_elim {s p : Str} (h : strIncludes s p = true) :
    ∃ u w, s = u ++ (p ++ w) := by
  induction s with
  | nil =>
    cases p with
    | nil => exact ⟨[], [], rfl⟩
    | cons c cs => simp [strIncludes, strStartsWith] at h
  | cons d ds ih =>
    simp only [strIncludes, Bool.or_eq_true] at h
    rcases h with h | h
    · obtain ⟨t, ht⟩ := exists_of_strStartsWith h
      exact ⟨[], t, ht⟩
    · obtain ⟨u, w, hw⟩ := ih h
      exact ⟨d :: u, w, by simp [hw]⟩

theorem strIncludes_of_middle {s p : Str} (pre post : Str)
    (h : strIncludes s p = true) : strIncludes (pre ++ (s ++ post)) p = true := by
  obtain ⟨u, w, rfl⟩ := strIncludes_elim h
  have : pre ++ ((u ++ (p ++ w)) ++ post) = (pre ++ u) ++ (p ++ (w ++ post)) := by
    simp [List.append_assoc]
  rw [this]
  exact strIncludes_intro (pre ++ u) p (w ++ post)

theorem strIncludes_of_startsWith {s p q : Str} (hs : strStartsWith s p = true)
    (hpq : strIncludes p q = true) : strIncludes s q = true := by
  obtain ⟨t, rfl⟩ := exists_of_strStartsWith hs
  obtain ⟨u, w, rfl⟩ := strIncludes_elim hpq
  have : (u ++ (q ++ w)) ++ t = u ++ (q ++ (w ++ t)) := by
    simp [List.append_assoc]
  rw [this]
  exact strIncludes_intro u q (w ++ t)

theorem strLt_nil_pat (a : Str) : strLt a [] = false := by
  cases a <;> rfl

theorem strLt_asymm {a b : Str} (h : strLt a b = true) : strLt b a = false := by
  induction a generalizing b with
  | nil =>
    cases b with
    | nil => simp [strLt] at h
    | cons y ys => exact strLt_nil_pat (y :: ys)
  | cons x xs ih =>
    cases b with
    | nil => rw [strLt_nil_pat] at h; exact absurd h (by simp)
    | cons y ys =>
      by_cases hxy : x < y
      · simp [strLt, hxy, asymm hxy]
      · by_cases hyx : y < x
        · simp [strLt, hxy, hyx] at h
        · simp only [strLt, if_neg hxy, if_neg hyx] at h
          simp [strLt, hxy, hyx, ih h]

theorem strLt_trans {a b c : Str} (h1 : strLt a b = true) (h2 : strLt b c = true) :
    strLt a c = true := by
  induction a generalizing b c with
  | nil =>
    cases c with
    | nil =>
      cases b with
      | nil => simp [strLt] at h1
      | cons y ys => rw [strLt_nil_pat] at h2; exact absurd h2 (by simp)
    | cons z zs => simp [strLt]
  | cons x xs ih =>
    cases b with
    | nil => rw [strLt_nil_pat] at h1; exact absurd h1 (by simp)
    | cons y ys =>
      cases c with
      | nil => rw [strLt_nil_pat] at h2; exact absurd h2 (by simp)
      | cons z zs =>
        by_cases hxy : x < y
        · by_cases hyz : y < z
          · simp [strLt, lt_trans hxy hyz]
          · by_cases hzy : z < y
            · simp [strLt, hyz, hzy] at h2
            · have hyz2 : y = z := le_antisymm (le_of_not_lt hzy) (le_of_not_lt hyz)
              simp [strLt, hyz2 ▸ hxy]
        · by_cases hyx : y < x
          · simp [strLt, hxy, hyx] at h1
          · have hxy2 : x = y := le_antisymm (le_of_not_lt hyx) (le_of_not_lt hxy)
            simp only [strLt, if_neg hxy, if_neg hyx] at h1
            by_cases hyz : y < z
            · simp [strLt, hxy2 ▸ hyz]
            · by_cases hzy : z < y
              · simp [strLt, hyz, hzy] at h2
              · simp only [strLt, if_neg hyz, if_neg hzy] at h2
                have hx3 : ¬ x < z := hxy2 ▸ hyz
                have hz3 : ¬ z < x := hxy2 ▸ hzy
                simp [strLt, hx3, hz3, ih h1 h2]

theorem eq_of_strLt_false {a b : Str} (h1 : strLt a b = false) (h2 : strLt b a = false) :
    a = b := by
  induction a generalizing b with
  | nil =>
    cases b with
    | nil => rfl
    | cons y ys => simp [strLt] at h1
  | cons x xs ih =>
    cases b with
    | nil => simp [strLt] at h2
    | cons y ys =>
      by_cases hxy : x < y
      · simp [strLt, hxy] at h1
      · by_cases hyx : y < x
        · simp [strLt, hyx] at h2
        · have hxy2 : x = y := le_antisymm (le_of_not_lt hyx) (le_of_not_lt hxy)
          simp only [strLt, if_neg hxy, if_neg hyx] at h1
          simp only [strLt, if_neg hyx, if_neg hxy] at h2
          rw [hxy2, ih h1 h2]

/-- Embedding of the TypeScript interface `FormattableReturnType`. -/
structure FormattableReturnType where
  binaryType : Str
  stringType : Str
deriving DecidableEq

/-- Embedding of the TypeScript interface `libsodiumConstant`. -/
structure LibsodiumConstant where
  name : Str
  type : Str
deriving DecidableEq

/-- Embedding of the TypeScript interface `libsodiumSymbolIO` (the trailing
`IO` of the source name is written `Io` here). -/
structure LibsodiumSymbolIo where
  name : Str
  optional : Option Bool := none
  size : Option Str := none
  type : Str
deriving DecidableEq

/-- Embedding of the entries of the `assert_retval` field of a symbol. -/
structure AssertRetval where
  condition : Str
  or_else_throw : Str
deriving DecidableEq

/-- Embedding of the TypeScript interface `libsodiumSymbol`.  The `return`
field keeps its source name via guillemets since `return` is a Lean keyword. -/
structure LibsodiumSymbol where
  assert_retval : Option (List AssertRetval) := none
  dependencies : Option (List Str) := none
  inputs : Option (List LibsodiumSymbolIo) := none
  name : Str
  noOutputFormat : Option Bool := none
  outputs : Option (List LibsodiumSymbolIo) := none
  «return» : Option Str := none
  target : Option Str := none
  type : Str := S "function"
deriving DecidableEq

/-- Result type of `convertReturnType`: the TypeScript union
`string | FormattableReturnType`. -/
inductive ReturnType where
  | single (t : Str)
  | paired (t : FormattableReturnType)
deriving DecidableEq

/-- The key-pair marker prefix from `convertReturnType`. -/
def kpMarker : Str := S "\x7bpublicKey: _format_output"

/-- The ciphertext+mac marker prefix from `convertReturnType`. -/
def boxMarker : Str := S "_format_output(\x7bciphertext: ciphertext, mac: mac\x7d"

/-- The mac+cipher marker prefix from `convertReturnType`. -/
def sboxMarker : Str := S "_format_output(\x7bmac: mac, cipher: cipher\x7d"

/-- The shared-secret-pair marker prefix from `convertReturnType`. -/
def kxMarker : Str := S "_format_output(\x7bsharedRx: sharedRx, sharedTx: sharedTx\x7d"

/-- The generic output-format marker tested with `includes`. -/
def fmtMarker : Str := S "_format_output"

/-- Embedding of `TypeGenerator.convertType`. -/
def convertType (type : Str) : Str :=
  if type == S "uint" then S "number"
  else if type == S "buf" || type == S "randombytes_implementation" then S "Uint8Array"
  else if type == S "unsized_buf" || type == S "unsized_buf_optional" then
    S "string | Uint8Array | undefined"
  else type

/-- Embedding of `TypeGenerator.convertReturnType`: the pattern rules in their
source order, first match winning. -/
def convertReturnType (type : Str) : ReturnType :=
  if strStartsWith type kpMarker then
    ReturnType.paired ⟨S "KeyPair", S "StringKeyPair"⟩
  else if strStartsWith type boxMarker then
    ReturnType.paired ⟨S "CryptoBox", S "StringCryptoBox"⟩
  else if strStartsWith type sboxMarker then
    ReturnType.paired ⟨S "SecretBox", S "StringSecretBox"⟩
  else if strStartsWith type kxMarker then
    ReturnType.paired ⟨S "CryptoKX", S "StringCryptoKX"⟩
  else if type == S "random_value" then ReturnType.single (S "number")
  else if strIncludes type (S "=== 0") then ReturnType.single (S "boolean")
  else if strIncludes type (S "stringify") then ReturnType.single (S "string")
  else if strIncludes type fmtMarker then ReturnType.paired ⟨S "Uint8Array", S "string"⟩
  else ReturnType.single type

/-- The text rendered for one parameter by the `getParameters` closure,
without the separator that may follow it. -/
def renderParam (param : LibsodiumSymbolIo) : Str :=
  param.name ++ S ": " ++ convertType param.type
    ++ (if strIncludes param.type (S "optional") then S " | null" else [])

/-- Embedding of the `getParameters` closure of `buildData`: each parameter is
followed by the separator unless it is the last one and `formattingAvailable`
is false. -/
def getParameters : List LibsodiumSymbolIo → Bool → Str
  | [], _ => []
  | [param], formattingAvailable =>
      renderParam param ++ (if formattingAvailable then S ", " else [])
  | param :: rest, formattingAvailable =>
      renderParam param ++ S ", " ++ getParameters rest formattingAvailable

/-- Truthiness of the optional `return` field: JavaScript `!fn.return` is true
when the field is absent or the empty string. -/
def jsFalsyOptStr : Option Str → Bool
  | none => true
  | some s => s.isEmpty

/-- The defaulting statement `if (!fn.return) \x7b fn.return = 'void' \x7d`,
which mutates the symbol object. -/
def defaultedReturn (fn : LibsodiumSymbol) : LibsodiumSymbol :=
  if jsFalsyOptStr fn.«return» then { fn with «return» := some (S "void") } else fn

/-- The rendered input-parameter list of a function: `getParameters` on the
`inputs` field when present, otherwise the empty string. -/
def emitInputs (fn : LibsodiumSymbol) (formattingAvailable : Bool) : Str :=
  match fn.inputs with
  | some arr => getParameters arr formattingAvailable
  | none => []

/-- Embedding of one iteration of the function-emission loop of `buildData`:
returns the symbol as left behind by the loop (its `return` field is mutated
when it was falsy) together with the emitted declaration text. -/
def emitFunction (fn : LibsodiumSymbol) : LibsodiumSymbol × Str :=
  let fn2 := defaultedReturn fn
  let ret := fn2.«return».getD []
  let formattingAvailable := strIncludes ret fmtMarker
  let inputs := emitInputs fn2 formattingAvailable
  match convertReturnType ret with
  | ReturnType.paired rt =>
      (fn2,
        S "  function " ++ fn2.name ++ S "(" ++ inputs
          ++ S "outputFormat?: Uint8ArrayOutputFormat | null): " ++ rt.binaryType ++ S ";\n"
          ++ S "  function " ++ fn2.name ++ S "(" ++ inputs
          ++ S "outputFormat: StringOutputFormat | null): " ++ rt.stringType ++ S ";\n")
  | ReturnType.single t =>
      (fn2, S "  function " ++ fn2.name ++ S "(" ++ inputs ++ S "): " ++ t ++ S ";\n")

/-- The order induced by the sort comparator
`(a, b) => (a.name < b.name ? -1 : a.name > b.name ? 1 : 0)`: `a` may be
placed before `b` exactly when the comparator is not positive, i.e. when
`b < a` is false. -/
def lexLe (a b : Str) : Prop := strLt b a = false

instance : DecidableRel lexLe := fun a b => instDecidableEqBool (strLt b a) false

theorem lexLe_total (a b : Str) : lexLe a b ∨ lexLe b a := by
  cases h : strLt b a with
  | false => exact Or.inl h
  | true => exact Or.inr (strLt_asymm h)

theorem lexLe_trans {a b c : Str} (h1 : lexLe a b) (h2 : lexLe b c) : lexLe a c := by
  simp only [lexLe] at h1 h2 ⊢
  cases hca : strLt c a with
  | false => rfl
  | true =>
    cases hab : strLt a b with
    | true => rw [strLt_trans hca hab] at h2; exact h2
    | false =>
      have hab2 : a = b := eq_of_strLt_false hab h1
      rw [hab2] at hca
      rw [hca] at h2
      exact h2

/-- The comparator order on symbols, by name. -/
def symbolLe (a b : LibsodiumSymbol) : Prop := lexLe a.name b.name

instance : DecidableRel symbolLe :=
  fun a b => inferInstanceAs (Decidable (lexLe a.name b.name))

instance : IsTotal LibsodiumSymbol symbolLe := ⟨fun a b => lexLe_total a.name b.name⟩

instance : IsTrans LibsodiumSymbol symbolLe := ⟨fun _ _ _ h1 h2 => lexLe_trans h1 h2⟩

/-- The comparator order on constants, by name. -/
def constantLe (a b : LibsodiumConstant) : Prop := lexLe a.name b.name

instance : DecidableRel constantLe :=
  fun a b => inferInstanceAs (Decidable (lexLe a.name b.name))

instance : IsTotal LibsodiumConstant constantLe := ⟨fun a b => lexLe_total a.name b.name⟩

instance : IsTrans LibsodiumConstant constantLe := ⟨fun _ _ _ h1 h2 => lexLe_trans h1 h2⟩

/-- Embedding of `TypeGenerator.getFunctions` after the per-file JSON parsing:
the parsed symbols are concatenated with the hardcoded `additionalSymbols`
and sorted by the name comparator.  The JavaScript `Array.prototype.sort` is
modelled as a comparison sort (insertion sort) producing a permutation of its
input that is sorted by the comparator-induced order `symbolLe`. -/
def getFunctions (symbols additionalSymbols : List LibsodiumSymbol) :
    List LibsodiumSymbol :=
  List.insertionSort symbolLe (symbols ++ additionalSymbols)

/-- The synthetic constant pushed by `getConstants`. -/
def readyConstant : LibsodiumConstant := { name := S "ready", type := S "Promise<void>" }

/-- Embedding of `TypeGenerator.getConstants` after the JSON parsing: the
synthetic `ready` constant is pushed when `this.libsodiumVersion` is truthy
(a non-empty string), then the list is sorted by the name comparator. -/
def getConstants (upstream : List LibsodiumConstant) (libsodiumVersion : Str) :
    List LibsodiumConstant :=
  List.insertionSort constantLe
    (if libsodiumVersion.isEmpty then upstream else upstream ++ [readyConstant])

/-- The data consumed by `buildData`: `types`, `enums`, `genericTypes` and
`additionalSymbols` come from the `./libsodiumTypes` module (not under
`src/`), `symbolFiles` from the parsed `wrapper/symbols` files and
`constantsUpstream` from the parsed `wrapper/constants.json`.  The
`Object.keys` iteration order (insertion order) is modelled by association
lists. -/
structure Catalog where
  types : List (Str × List Str)
  enums : List (Str × List Str)
  genericTypes : List (Str × List (Str × Str))
  constantsUpstream : List LibsodiumConstant
  symbolFiles : List LibsodiumSymbol
  additionalSymbols : List LibsodiumSymbol

/-- Concatenation of the per-entry text emitted by one `forEach` loop. -/
def sectionOf (f : α → Str) : List α → Str
  | [] => []
  | x :: xs => f x ++ sectionOf f xs

/-- The union body of a type alias: members joined by a bar, a semicolon
after the last one. -/
def typeAliasBody : List Str → Str
  | [] => []
  | [t] => t ++ S ";"
  | t :: ts => t ++ S " | " ++ typeAliasBody ts

/-- One `type` statement of the types loop of `buildData`. -/
def typeAliasDecl (t : Str × List Str) : Str :=
  S "  type " ++ t.1 ++ S " = " ++ typeAliasBody t.2 ++ S "\n"

/-- One `enum` block of the enums loop of `buildData`. -/
def enumDecl (e : Str × List Str) : Str :=
  S "  enum " ++ e.1 ++ S " \x7b\n"
    ++ sectionOf (fun v => S "    " ++ v ++ S ",\n") e.2
    ++ S "  \x7d\n\n"

/-- One `interface` block of the generic-types loop of `buildData`. -/
def genericTypeDecl (g : Str × List (Str × Str)) : Str :=
  S "  interface " ++ g.1 ++ S " \x7b\n"
    ++ sectionOf (fun f => S "    " ++ f.1 ++ S ": " ++ f.2 ++ S ";\n") g.2
    ++ S "  \x7d\n\n"

/-- One `const` declaration of the constants loop of `buildData`. -/
def constantDecl (c : LibsodiumConstant) : Str :=
  S "  const " ++ c.name ++ S ": " ++ convertType c.type ++ S ";\n"

/-- The fixed document header of `buildData`, including the opened module
declaration. -/
def headerString (sumo : Bool) (version : Str) : Str :=
  S "// Type definitions for libsodium-wrappers" ++ (if sumo then S "-sumo" else [])
    ++ S " " ++ version ++ S "\n"
    ++ S "// Project: https://github.com/jedisct1/libsodium.js\n"
    ++ S "// Definitions by: Florian Keller <https://github.com/ffflorian>\n\n"
    ++ S "declare module \x27libsodium-wrappers" ++ (if sumo then S "-sumo" else [])
    ++ S "\x27 \x7b\n"

/-- The constant list used by `buildData`: the loaded constants, filtered by
the sumo-only exclusion list (the content of the `sumoOnlySymbols` module,
which is not under `src/`, is the parameter `excl`) unless the sumo variant
was requested. -/
def emittedConstants (excl : List Str) (upstream : List LibsodiumConstant)
    (version : Str) (sumo : Bool) : List LibsodiumConstant :=
  let constants := getConstants upstream version
  if sumo then constants
  else constants.filter (fun c => !(excl.contains (strToLower c.name)))

/-- The function list used by `buildData`: the loaded symbols, filtered by the
sumo-only exclusion list unless the sumo variant was requested. -/
def emittedFunctions (excl : List Str) (symbols additionalSymbols : List LibsodiumSymbol)
    (sumo : Bool) : List LibsodiumSymbol :=
  let functions := getFunctions symbols additionalSymbols
  if sumo then functions
  else functions.filter (fun f => !(excl.contains (strToLower f.name)))

/-- Embedding of `TypeGenerator.buildData`: the accumulating `data` variable
threaded through the `forEach` loops of the source, closed by the final
brace. -/
def buildData (excl : List Str) (cat : Catalog) (version : Str) (sumo : Bool) : Str :=
  let data := headerString sumo version
  let data := cat.types.foldl (fun d t => d ++ typeAliasDecl t) data
  let data := data ++ S "\n"
  let data := cat.enums.foldl (fun d e => d ++ enumDecl e) data
  let data := cat.genericTypes.foldl (fun d g => d ++ genericTypeDecl g) data
  let data := (emittedConstants excl cat.constantsUpstream version sumo).foldl
    (fun d c => d ++ constantDecl c) data
  let data := data ++ S "\n"
  let data := (emittedFunctions excl cat.symbolFiles cat.additionalSymbols sumo).foldl
    (fun d fn => d ++ (emitFunction fn).2) data
  data ++ S "\x7d"

/-- Modelled from the spec: `utils.compareVersionNumbers` lives in
`src/utils.ts`, which is not under `src/`.  Per the spec a non-numeric version
string fails the comparison (`NaN`, modelled as `none`) and versions otherwise
compare numerically; dotted components are compared left to right. -/
def splitOnDotAux (acc : Str) : Str → List Str
  | [] => [acc.reverse]
  | c :: cs => if c == '.' then acc.reverse :: splitOnDotAux [] cs else splitOnDotAux (c :: acc) cs

/-- Split a version string on the dots. -/
def splitOnDot (s : Str) : List Str := splitOnDotAux [] s

/-- Whether a dotted component is a (non-empty) run of decimal digits. -/
def isNumericPart (p : Str) : Bool := !p.isEmpty && p.all Char.isDigit

/-- Decimal value of a component. -/
def partToNat (p : Str) : Nat := p.foldl (fun n c => n * 10 + (c.toNat - 48)) 0

/-- Componentwise numeric comparison; a missing component compares below a
present one. -/
def cmpParts : List Nat → List Nat → Int
  | [], [] => 0
  | [], _ :: _ => -1
  | _ :: _, [] => 1
  | a :: as, b :: bs => if a < b then -1 else if b < a then 1 else cmpParts as bs

/-- Modelled from the spec: the version comparison used by
`setDownloadVersion`; `none` models the `NaN` result for non-numeric input. -/
def compareVersionNumbers (v1 v2 : Str) : Option Int :=
  let p1 := splitOnDot v1
  let p2 := splitOnDot v2
  if p1.all isNumericPart && p2.all isNumericPart then
    some (cmpParts (p1.map partToNat) (p2.map partToNat))
  else none

/-- The mutable instance fields of `TypeGenerator` that the claims concern:
the output target (rebound by `generate` when it is a directory) and the
active libsodium version (initially `'0.7.3'`, reassigned by
`setDownloadVersion`). -/
structure GenState where
  outputFileOrDir : Str
  libsodiumVersion : Str
deriving DecidableEq

/-- The state after the constructor (which also resolves the caller-given
path; path resolution of the constructor argument is kept abstract). -/
def initialState (outputFileOrDir : Str) : GenState :=
  { outputFileOrDir := outputFileOrDir, libsodiumVersion := S "0.7.3" }

/-- Embedding of `TypeGenerator.setDownloadVersion`: throws when the
comparison against the current `libsodiumVersion` is `NaN` or negative,
otherwise assigns the new version.  The model performs no network access:
the source method only compares and assigns. -/
def setDownloadVersion (version : Str) (st : GenState) : Except Str GenState :=
  match compareVersionNumbers version st.libsodiumVersion with
  | none => Except.error (S "Minimum version is " ++ st.libsodiumVersion ++ S ".")
  | some comparison =>
      if comparison < 0 then
        Except.error (S "Minimum version is " ++ st.libsodiumVersion ++ S ".")
      else Except.ok { st with libsodiumVersion := version }

/-- The output file name chosen by `generate` when the output target is a
directory. -/
def fileNameFor (sumo : Bool) : Str :=
  S "libsodium-wrappers" ++ (if sumo then S "-sumo" else []) ++ S ".d.ts"

/-- Model of `path.resolve(dir, fileName)` for an absolute directory and a
plain file name. -/
def pathResolve (dir name : Str) : Str := dir ++ S "/" ++ name

/-- A file write performed by `generate`: the path written to (which is also
the method's return value) and the document text. -/
structure WriteOp where
  path : Str
  contents : Str
deriving DecidableEq

/-- Embedding of `TypeGenerator.generate`: builds the document, rebinds
`this.outputFileOrDir` to the variant-suffixed file inside it when the
current target is a directory (`isDir` models the `lstat` result on the
current filesystem), writes the document there and returns that path.  The
download/extraction/cleanup plumbing is external to the core per the spec and
not modelled. -/
def generate (excl : List Str) (cat : Catalog) (isDir : Str → Bool) (sumo : Bool)
    (st : GenState) : GenState × WriteOp :=
  let data := buildData excl cat st.libsodiumVersion sumo
  let out :=
    if isDir st.outputFileOrDir then pathResolve st.outputFileOrDir (fileNameFor sumo)
    else st.outputFileOrDir
  ({ st with outputFileOrDir := out }, { path := out, contents := data })

theorem foldl_append_sectionOf (f : α → Str) (l : List α) (init : Str) :
    l.foldl (fun d x => d ++ f x) init = init ++ sectionOf f l := by
  induction l generalizing init with
  | nil => simp [sectionOf]
  | cons x xs ih => simp [sectionOf, ih, List.append_assoc]

theorem sectionOf_append (f : α → Str) (l1 l2 : List α) :
    sectionOf f (l1 ++ l2) = sectionOf f l1 ++ sectionOf f l2 := by
  induction l1 with
  | nil => simp [sectionOf]
  | cons x xs ih => simp [sectionOf, ih, List.append_assoc]

theorem mem_sectionOf (f : α → Str) {x : α} {l : List α} (h : x ∈ l) :
    ∃ u w, sectionOf f l = u ++ (f x ++ w) := by
  obtain ⟨s, t, rfl⟩ := List.append_of_mem h
  exact ⟨sectionOf f s, sectionOf f t, by simp [sectionOf_append, sectionOf]⟩

theorem buildData_eq (excl : List Str) (cat : Catalog) (version : Str) (sumo : Bool) :
    buildData excl cat version sumo =
      headerString sumo version
        ++ (sectionOf typeAliasDecl cat.types
        ++ (S "\n"
        ++ (sectionOf enumDecl cat.enums
        ++ (sectionOf genericTypeDecl cat.genericTypes
        ++ (sectionOf constantDecl (emittedConstants excl cat.constantsUpstream version sumo)
        ++ (S "\n"
        ++ (sectionOf (fun fn => (emitFunction fn).2)
              (emittedFunctions excl cat.symbolFiles cat.additionalSymbols sumo)
        ++ S "\x7d"))))))) := by
  simp [buildData, foldl_append_sectionOf, List.append_assoc]

/-- The separator-joined parameter list, used to state the rendering rule. -/
def joinSep (sep : Str) : List Str → Str
  | [] => []
  | [x] => x
  | x :: xs => x ++ sep ++ joinSep sep xs

theorem getParameters_true_trailing (arr : List LibsodiumSymbolIo) (h : arr ≠ []) :
    ∃ pre, getParameters arr true = pre ++ S ", " := by
  induction arr with
  | nil => exact absurd rfl h
  | cons p rest ih =>
    cases rest with
    | nil => exact ⟨renderParam p, by simp [getParameters]⟩
    | cons q rest2 =>
      obtain ⟨pre, hp⟩ := ih (by simp)
      exact ⟨renderParam p ++ S ", " ++ pre, by simp [getParameters, hp, List.append_assoc]⟩

theorem includes_fmt_of_paired {r : Str} {rt : FormattableReturnType}
    (h : convertReturnType r = ReturnType.paired rt) :
    strIncludes r fmtMarker = true := by
  unfold convertReturnType at h
  split_ifs at h with h1 h2 h3 h4 h5 h6 h7 h8
  · exact strIncludes_of_startsWith h1 (by decide)
  · exact strIncludes_of_startsWith h2 (by decide)
  · exact strIncludes_of_startsWith h3 (by decide)
  · exact strIncludes_of_startsWith h4 (by decide)
  · exact h8

theorem emitFunction_fst (fn : LibsodiumSymbol) :
    (emitFunction fn).1 = defaultedReturn fn := by
  unfold emitFunction
  cases h : convertReturnType ((defaultedReturn fn).«return».getD []) <;> simp [h]

theorem pairwise_strict_names {α : Type} (f : α → Str) {l : List α}
    (hs : l.Pairwise (fun a b => lexLe (f a) (f b)))
    (hn : (l.map f).Nodup) :
    (l.map f).Pairwise (fun a b => strLt a b = true) := by
  have hne : l.Pairwise (fun a b => f a ≠ f b) := List.pairwise_map.mp hn
  refine List.pairwise_map.mpr ((hs.and hne).imp ?_)
  rintro a b ⟨hle, hne2⟩
  cases hlt : strLt (f a) (f b) with
  | true => rfl
  | false => exact absurd (eq_of_strLt_false hlt hle) hne2

/-- C1: `convertReturnType` evaluates its rules in a fixed priority order with
first match winning: a return expression that begins with one of the four
specific structured-output markers (and also contains the generic
`_format_output` marker) resolves to the corresponding specific paired record
type, never to the generic `Uint8Array`/`string` pair. -/
theorem claim1 (s : Str) (hfmt : strIncludes s fmtMarker = true) :
    (strStartsWith s kpMarker = true →
       convertReturnType s = ReturnType.paired ⟨S "KeyPair", S "StringKeyPair"⟩) ∧
    (strStartsWith s boxMarker = true →
       convertReturnType s = ReturnType.paired ⟨S "CryptoBox", S "StringCryptoBox"⟩) ∧
    (strStartsWith s sboxMarker = true →
       convertReturnType s = ReturnType.paired ⟨S "SecretBox", S "StringSecretBox"⟩) ∧
    (strStartsWith s kxMarker = true →
       convertReturnType s = ReturnType.paired ⟨S "CryptoKX", S "StringCryptoKX"⟩) ∧
    ((strStartsWith s kpMarker || strStartsWith s boxMarker || strStartsWith s sboxMarker
        || strStartsWith s kxMarker) = true →
       convertReturnType s ≠ ReturnType.paired ⟨S "Uint8Array", S "string"⟩) := by
  have k1 : strStartsWith s kpMarker = true →
      convertReturnType s = ReturnType.paired ⟨S "KeyPair", S "StringKeyPair"⟩ := by
    intro h
    unfold convertReturnType
    simp [h]
  have k2 : strStartsWith s boxMarker = true →
      convertReturnType s = ReturnType.paired ⟨S "CryptoBox", S "StringCryptoBox"⟩ := by
    intro h
    have n1 : strStartsWith s kpMarker = false :=
      strStartsWith_false_of h (by decide) (by decide)
    unfold convertReturnType
    simp [h, n1]
  have k3 : strStartsWith s sboxMarker = true →
      convertReturnType s = ReturnType.paired ⟨S "SecretBox", S "StringSecretBox"⟩ := by
    intro h
    have n1 : strStartsWith s kpMarker = false :=
      strStartsWith_false_of h (by decide) (by decide)
    have n2 : strStartsWith s boxMarker = false :=
      strStartsWith_false_of h (by decide) (by decide)
    unfold convertReturnType
    simp [h, n1, n2]
  have k4 : strStartsWith s kxMarker = true →
      convertReturnType s = ReturnType.paired ⟨S "CryptoKX", S "StringCryptoKX"⟩ := by
    intro h
    have n1 : strStartsWith s kpMarker = false :=
      strStartsWith_false_of h (by decide) (by decide)
    have n2 : strStartsWith s boxMarker = false :=
      strStartsWith_false_of h (by decide) (by decide)
    have n3 : strStartsWith s sboxMarker = false :=
      strStartsWith_false_of h (by decide) (by decide)
    unfold convertReturnType
    simp [h, n1, n2, n3]
  refine ⟨k1, k2, k3, k4, ?_⟩
  intro h
  simp only [Bool.or_eq_true] at h
  rcases h with ((h | h) | h) | h
  · rw [k1 h]; decide
  · rw [k2 h]; decide
  · rw [k3 h]; decide
  · rw [k4 h]; decide

/-- Witness for C1, instantiated at the key-pair marker itself. -/
theorem claim1_witness :
    strIncludes kpMarker fmtMarker = true ∧
      convertReturnType kpMarker = ReturnType.paired ⟨S "KeyPair", S "StringKeyPair"⟩ :=
  ⟨by decide, (claim1 kpMarker (by decide)).1 (by decide)⟩

/-- C10: if `convertReturnType` yields a paired type then the expression
contains the `_format_output` marker, so `formattingAvailable` is true for
that function and the rendered parameter list of a non-empty input list ends
with the separator that precedes the synthetic `outputFormat` parameter. -/
theorem claim10 (r : Str) (rt : FormattableReturnType)
    (h : convertReturnType r = ReturnType.paired rt) :
    strIncludes r fmtMarker = true ∧
      ∀ arr : List LibsodiumSymbolIo, arr ≠ [] →
        ∃ pre, getParameters arr (strIncludes r fmtMarker) = pre ++ S ", " := by
  have hf := includes_fmt_of_paired h
  exact ⟨hf, fun arr ha => by rw [hf]; exact getParameters_true_trailing arr ha⟩

/-- Witness for C10 at the ciphertext+mac marker. -/
theorem claim10_witness : strIncludes boxMarker fmtMarker = true :=
  (claim10 boxMarker ⟨S "CryptoBox", S "StringCryptoBox"⟩ (by decide)).1

/-- A concrete key-pair symbol used to settle C2. -/
def claim2Fn : LibsodiumSymbol :=
  { name := S "crypto_box_keypair"
    «return» := some (S "\x7bpublicKey: _format_output(publicKey)\x7d") }

/-- Modelled from the wording of C2: the overload pair with the second,
string-returning signature taking a required and NON-NULL selector (no null
union on its type), for comparison with what the emitter produces. -/
def claimedOverloadPair (name inputs : Str) (rt : FormattableReturnType) : Str :=
  S "  function " ++ name ++ S "(" ++ inputs
    ++ S "outputFormat?: Uint8ArrayOutputFormat | null): " ++ rt.binaryType ++ S ";\n"
    ++ S "  function " ++ name ++ S "(" ++ inputs
    ++ S "outputFormat: StringOutputFormat): " ++ rt.stringType ++ S ";\n"

/-- C2 (counterexample): the emitter does not produce the claimed shape — its
second overload declares the selector as `StringOutputFormat | null`, i.e.
required but nullable, not required-and-non-null. -/
theorem claim2_counterexample :
    (emitFunction claim2Fn).2 ≠
        claimedOverloadPair (S "crypto_box_keypair") [] ⟨S "KeyPair", S "StringKeyPair"⟩ ∧
      strIncludes (emitFunction claim2Fn).2
        (S "outputFormat: StringOutputFormat | null") = true := by decide

/-- C2 (amended): a function whose return expression resolves to a paired
type is emitted as exactly two overload signatures sharing the same rendered
input parameters; the first takes an optional nullable binary selector and
returns the binary type, the second takes a required but NULLABLE string
selector and returns the string type. -/
theorem claim2_amended (fn : LibsodiumSymbol) (r : Str) (rt : FormattableReturnType)
    (hr : fn.«return» = some r) (hp : convertReturnType r = ReturnType.paired rt) :
    (emitFunction fn).2 =
      S "  function " ++ fn.name ++ S "(" ++ emitInputs fn true
        ++ S "outputFormat?: Uint8ArrayOutputFormat | null): " ++ rt.binaryType ++ S ";\n"
        ++ S "  function " ++ fn.name ++ S "(" ++ emitInputs fn true
        ++ S "outputFormat: StringOutputFormat | null): " ++ rt.stringType ++ S ";\n" := by
  have hne : r ≠ [] := by
    intro h0
    rw [h0] at hp
    have hnil : convertReturnType [] = ReturnType.single [] := by decide
    rw [hnil] at hp
    exact absurd hp (by simp)
  have hfalsy : jsFalsyOptStr fn.«return» = false := by
    rw [hr]
    cases r with
    | nil => exact absurd rfl hne
    | cons c cs => rfl
  have hdef : defaultedReturn fn = fn := by simp [defaultedReturn, hfalsy]
  have hf := includes_fmt_of_paired hp
  simp [emitFunction, hdef, hr, hp, hf]

/-- Witness for C2 amended at the concrete key-pair symbol. -/
theorem claim2_witness :
    (emitFunction claim2Fn).2 =
      S "  function " ++ claim2Fn.name ++ S "(" ++ emitInputs claim2Fn true
        ++ S "outputFormat?: Uint8ArrayOutputFormat | null): " ++ S "KeyPair" ++ S ";\n"
        ++ S "  function " ++ claim2Fn.name ++ S "(" ++ emitInputs claim2Fn true
        ++ S "outputFormat: StringOutputFormat | null): " ++ S "StringKeyPair" ++ S ";\n" :=
  claim2_amended claim2Fn (S "\x7bpublicKey: _format_output(publicKey)\x7d")
    ⟨S "KeyPair", S "StringKeyPair"⟩ rfl (by decide)

/-- A concrete symbol whose return expression contains the output-format
marker yet resolves to a single type, used to settle C3. -/
def claim3Fn : LibsodiumSymbol :=
  { name := S "f"
    inputs := some [{ name := S "a", type := S "uint" }]
    «return» := some (S "stringify(_format_output(x))") }

/-- C3 (counterexample): for a function whose return expression contains the
output-format marker but resolves to a single type, the emitted single
signature DOES carry a dangling separator after its last parameter. -/
theorem claim3_counterexample :
    convertReturnType (S "stringify(_format_output(x))") = ReturnType.single (S "string") ∧
      strIncludes (S "stringify(_format_output(x))") fmtMarker = true ∧
      (emitFunction claim3Fn).2 = S "  function f(a: number, ): string;\n" ∧
      strIncludes (emitFunction claim3Fn).2 (S ", )") = true := by decide

/-- C3 (amended): declared parameters are joined in declared order by the
separator, and a trailing separator follows the last parameter exactly when
`formattingAvailable` is true (the return expression contains the
output-format marker) — whether or not a synthetic selector parameter
actually follows in the emitted signature. -/
theorem claim3_amended (arr : List LibsodiumSymbolIo) (fa : Bool) :
    getParameters arr fa =
      joinSep (S ", ") (arr.map renderParam)
        ++ (if arr.isEmpty then [] else if fa then S ", " else []) := by
  induction arr with
  | nil => simp [getParameters, joinSep]
  | cons p rest ih =>
    cases rest with
    | nil => cases fa <;> simp [getParameters, joinSep]
    | cons q rest2 =>
      simp only [getParameters, ih]
      simp [joinSep, List.append_assoc]

/-- A concrete symbol with an absent return field, used to settle C7. -/
def claim7Fn : LibsodiumSymbol := { name := S "g", «return» := none }

/-- A concrete symbol with a truthy return field, used as the C7 witness. -/
def claim7FnKept : LibsodiumSymbol := { name := S "h", «return» := some (S "number") }

/-- C7 (counterexample): emitting a function whose return field is absent
does NOT leave it absent — the pipeline mutates it to `'void'`. -/
theorem claim7_counterexample :
    claim7Fn.«return» = none ∧ (emitFunction claim7Fn).1.«return» = some (S "void") := by
  decide

/-- C7 (amended): the only mutation the generation pipeline performs on a
loaded symbol is the defaulting of a falsy `return` field to `'void'`; every
other field is left unchanged, and a symbol whose `return` field is truthy is
left unchanged entirely. -/
theorem claim7_amended (fn : LibsodiumSymbol) :
    (emitFunction fn).1.name = fn.name ∧
    (emitFunction fn).1.inputs = fn.inputs ∧
    (emitFunction fn).1.outputs = fn.outputs ∧
    (emitFunction fn).1.dependencies = fn.dependencies ∧
    (emitFunction fn).1.noOutputFormat = fn.noOutputFormat ∧
    (emitFunction fn).1.target = fn.target ∧
    (emitFunction fn).1.assert_retval = fn.assert_retval ∧
    (emitFunction fn).1.type = fn.type ∧
    (jsFalsyOptStr fn.«return» = false → (emitFunction fn).1 = fn) ∧
    (jsFalsyOptStr fn.«return» = true →
       (emitFunction fn).1 = { fn with «return» := some (S "void") }) := by
  rw [emitFunction_fst]
  unfold defaultedReturn
  by_cases h : jsFalsyOptStr fn.«return» = true
  · simp [h]
  · simp [h]

/-- Witness for C7 amended: a symbol with a truthy return field is unchanged. -/
theorem claim7_witness : (emitFunction claim7FnKept).1 = claim7FnKept :=
  (claim7_amended claim7FnKept).2.2.2.2.2.2.2.2.1 (by decide)

theorem insertionSortPipeline {α : Type} (f : α → Str) (r : α → α → Prop)
    [DecidableRel r] [IsTotal α r] [IsTrans α r]
    (hr : ∀ a b, r a b → lexLe (f a) (f b)) (input : List α)
    (hn : (input.map f).Nodup) (p : α → Bool) :
    (((List.insertionSort r input).filter p).map f).Pairwise (fun a b => strLt a b = true) ∧
    (((List.insertionSort r input).filter p).map f).Nodup ∧
    ((List.insertionSort r input).map f).Pairwise (fun a b => strLt a b = true) ∧
    ((List.insertionSort r input).map f).Nodup := by
  have hsort : (List.insertionSort r input).Pairwise (fun a b => lexLe (f a) (f b)) :=
    List.Pairwise.imp (fun h => hr _ _ h) (List.sorted_insertionSort r input)
  have hperm := List.perm_insertionSort r input
  have hnodup : ((List.insertionSort r input).map f).Nodup :=
    ((hperm.map f).nodup_iff).mpr hn
  have hstrict := pairwise_strict_names f hsort hnodup
  have hsub : List.Sublist (((List.insertionSort r input).filter p).map f)
      ((List.insertionSort r input).map f) :=
    (List.filter_sublist _).map f
  exact ⟨hstrict.sublist hsub, List.Nodup.sublist hsub hnodup, hstrict, hnodup⟩

/-- The empty catalog, used by witnesses. -/
def emptyCatalog : Catalog :=
  { types := [], enums := [], genericTypes := [], constantsUpstream := []
    symbolFiles := [], additionalSymbols := [] }

/-- A catalog with a duplicated constant name, used to settle C5. -/
def dupCatalog : Catalog :=
  { types := [], enums := [], genericTypes := []
    constantsUpstream := [{ name := S "A", type := S "uint" }, { name := S "A", type := S "uint" }]
    symbolFiles := [], additionalSymbols := [] }

/-- C4: the standard variant emits exactly the extended-variant constants and
functions minus those whose lower-cased name is a member of the exclusion
list; the extended variant emits every loaded entry unchanged; the filter is
applied identically to the constant and function lists; and the type-alias,
enumeration and record sections of the document are variant-independent (the
filter never touches them). -/
theorem claim4 (excl : List Str) (cat : Catalog) (version : Str) :
    emittedConstants excl cat.constantsUpstream version false
        = (emittedConstants excl cat.constantsUpstream version true).filter
            (fun c => !(excl.contains (strToLower c.name))) ∧
      emittedConstants excl cat.constantsUpstream version true
        = getConstants cat.constantsUpstream version ∧
      emittedFunctions excl cat.symbolFiles cat.additionalSymbols false
        = (emittedFunctions excl cat.symbolFiles cat.additionalSymbols true).filter
            (fun f => !(excl.contains (strToLower f.name))) ∧
      emittedFunctions excl cat.symbolFiles cat.additionalSymbols true
        = getFunctions cat.symbolFiles cat.additionalSymbols ∧
      ∀ sumo, buildData excl cat version sumo =
        headerString sumo version
          ++ (sectionOf typeAliasDecl cat.types
          ++ (S "\n"
          ++ (sectionOf enumDecl cat.enums
          ++ (sectionOf genericTypeDecl cat.genericTypes
          ++ (sectionOf constantDecl (emittedConstants excl cat.constantsUpstream version sumo)
          ++ (S "\n"
          ++ (sectionOf (fun fn => (emitFunction fn).2)
                (emittedFunctions excl cat.symbolFiles cat.additionalSymbols sumo)
          ++ S "\x7d"))))))) :=
  ⟨rfl, rfl, rfl, rfl, fun sumo => buildData_eq excl cat version sumo⟩

/-- C5 (counterexample): the pipeline does not deduplicate — a catalog whose
constants file repeats a name emits that name twice in the extended variant,
so it does not appear exactly once and the order is not strictly ascending. -/
theorem claim5_counterexample :
    ((emittedConstants [] dupCatalog.constantsUpstream (S "0.7.3") true).map
        LibsodiumConstant.name).count (S "A") = 2 ∧
      ¬ ((emittedConstants [] dupCatalog.constantsUpstream (S "0.7.3") true).map
        LibsodiumConstant.name).Nodup := by decide

/-- C5 (amended): provided the merged symbol names and the upstream-plus-ready
constant names are pairwise distinct, every emitted function and constant name
appears exactly once (the emitted name lists are duplicate-free) and both
lists are strictly ascending by ordinal string comparison, in both variants;
the merge with the supplemental symbols and the appended synthetic constant
precede the sort, and the variant filter preserves the order. -/
theorem claim5_amended (excl : List Str) (cat : Catalog) (version : Str) (sumo : Bool)
    (hf : ((cat.symbolFiles ++ cat.additionalSymbols).map LibsodiumSymbol.name).Nodup)
    (hc : ((cat.constantsUpstream ++ [readyConstant]).map LibsodiumConstant.name).Nodup) :
    ((emittedFunctions excl cat.symbolFiles cat.additionalSymbols sumo).map
        LibsodiumSymbol.name).Pairwise (fun a b => strLt a b = true) ∧
      ((emittedFunctions excl cat.symbolFiles cat.additionalSymbols sumo).map
        LibsodiumSymbol.name).Nodup ∧
      ((emittedConstants excl cat.constantsUpstream version sumo).map
        LibsodiumConstant.name).Pairwise (fun a b => strLt a b = true) ∧
      ((emittedConstants excl cat.constantsUpstream version sumo).map
        LibsodiumConstant.name).Nodup := by
  have hcin : ((if version.isEmpty then cat.constantsUpstream
      else cat.constantsUpstream ++ [readyConstant]).map LibsodiumConstant.name).Nodup := by
    cases hv : version.isEmpty with
    | true =>
      simp only [hv, if_pos]
      exact List.Nodup.sublist
        ((List.sublist_append_left cat.constantsUpstream [readyConstant]).map _) hc
    | false =>
      simp only [hv, Bool.false_eq_true, if_neg, not_false_iff]
      exact hc
  have hfun := insertionSortPipeline LibsodiumSymbol.name symbolLe
    (fun _ _ h => h) (cat.symbolFiles ++ cat.additionalSymbols) hf
    (fun f => !(excl.contains (strToLower f.name)))
  have hcon := insertionSortPipeline LibsodiumConstant.name constantLe
    (fun _ _ h => h)
    (if version.isEmpty then cat.constantsUpstream
     else cat.constantsUpstream ++ [readyConstant]) hcin
    (fun c => !(excl.contains (strToLower c.name)))
  cases sumo with
  | true =>
    exact ⟨hfun.2.2.1, hfun.2.2.2, hcon.2.2.1, hcon.2.2.2⟩
  | false =>
    exact ⟨hfun.1, hfun.2.1, hcon.1, hcon.2.1⟩

/-- Witness for C5 amended on a small concrete catalog. -/
theorem claim5_witness :
    ((emittedConstants [] emptyCatalog.constantsUpstream (S "0.7.3") false).map
        LibsodiumConstant.name).Nodup :=
  (claim5_amended [] emptyCatalog (S "0.7.3") false (by decide) (by decide)).2.2.2

/-- C6: the loader appends exactly one synthetic `ready` constant with the
readiness type, independently of the upstream constant list (the active
version is truthy: every reachable version string is non-empty), and the
ready constant is present in the emitted, comparator-sorted constant list of
both variants and its declaration appears in the generated document.  The
`sumoOnlySymbols` module is not under `src/`; per the spec it holds only
extended-only names, so the hypothesis that `ready` is not excluded. -/
theorem claim6 (excl : List Str) (cat : Catalog) (version : Str) (sumo : Bool)
    (hv : version.isEmpty = false)
    (hx : excl.contains (strToLower (S "ready")) = false) :
    (getConstants cat.constantsUpstream version).count readyConstant
        = cat.constantsUpstream.count readyConstant + 1 ∧
      readyConstant ∈ emittedConstants excl cat.constantsUpstream version sumo ∧
      (emittedConstants excl cat.constantsUpstream version sumo).Pairwise constantLe ∧
      strIncludes (buildData excl cat version sumo)
        (S "  const ready: Promise<void>;\n") = true := by
  have hperm : List.Perm (getConstants cat.constantsUpstream version)
      (cat.constantsUpstream ++ [readyConstant]) := by
    unfold getConstants
    rw [if_neg (by simp [hv])]
    exact List.perm_insertionSort _ _
  have hcount : (getConstants cat.constantsUpstream version).count readyConstant
      = cat.constantsUpstream.count readyConstant + 1 := by
    rw [hperm.count_eq readyConstant]
    simp [List.count_append]
  have hmem1 : readyConstant ∈ getConstants cat.constantsUpstream version :=
    hperm.mem_iff.mpr (by simp)
  have hmem2 : readyConstant ∈ emittedConstants excl cat.constantsUpstream version sumo := by
    unfold emittedConstants
    cases sumo with
    | true => simpa using hmem1
    | false =>
      simp only [Bool.false_eq_true, if_neg, not_false_iff]
      have hx2 : strToLower (S "ready") ∉ excl := by simpa using hx
      exact List.mem_filter.mpr ⟨hmem1, by simp [readyConstant, hx2]⟩
  have hpw : (emittedConstants excl cat.constantsUpstream version sumo).Pairwise constantLe := by
    have hs : (getConstants cat.constantsUpstream version).Pairwise constantLe :=
      List.sorted_insertionSort constantLe _
    unfold emittedConstants
    cases sumo with
    | true => simpa using hs
    | false =>
      simp only [Bool.false_eq_true, if_neg, not_false_iff]
      exact hs.sublist (List.filter_sublist _)
  refine ⟨hcount, hmem2, hpw, ?_⟩
  obtain ⟨u, w, hsec⟩ := mem_sectionOf constantDecl hmem2
  have hdecl : constantDecl readyConstant = S "  const ready: Promise<void>;\n" := by decide
  have hc2 : strIncludes
      (sectionOf constantDecl (emittedConstants excl cat.constantsUpstream version sumo))
      (S "  const ready: Promise<void>;\n") = true := by
    rw [hsec, hdecl]
    exact strIncludes_intro u _ w
  rw [buildData_eq]
  have key := strIncludes_of_middle
    (headerString sumo version ++ (sectionOf typeAliasDecl cat.types
      ++ (S "\n" ++ (sectionOf enumDecl cat.enums ++ sectionOf genericTypeDecl cat.genericTypes))))
    (S "\n" ++ (sectionOf (fun fn => (emitFunction fn).2)
        (emittedFunctions excl cat.symbolFiles cat.additionalSymbols sumo) ++ S "\x7d"))
    hc2
  simpa [List.append_assoc] using key

/-- Witness for C6 on a concrete empty catalog. -/
theorem claim6_witness :
    readyConstant ∈ emittedConstants [] emptyCatalog.constantsUpstream (S "0.7.3") false ∧
      strIncludes (buildData [] emptyCatalog (S "0.7.3") false)
        (S "  const ready: Promise<void>;\n") = true :=
  ⟨(claim6 [] emptyCatalog (S "0.7.3") false (by decide) (by decide)).2.1,
   (claim6 [] emptyCatalog (S "0.7.3") false (by decide) (by decide)).2.2.2⟩

/-- C8 (counterexample): after a successful version bump on the same
generator, a numeric version above the fixed floor 0.7.3 is rejected, because
the comparison runs against the current active version rather than the fixed
floor. -/
theorem claim8_counterexample :
    (setDownloadVersion (S "0.8.0") (initialState (S "/out"))).toOption
        = some { outputFileOrDir := S "/out", libsodiumVersion := S "0.8.0" } ∧
      (setDownloadVersion (S "0.7.5")
          { outputFileOrDir := S "/out", libsodiumVersion := S "0.8.0" }).isOk = false ∧
      compareVersionNumbers (S "0.7.5") (S "0.7.3") = some 1 := by decide

/-- C8 (amended): `setDownloadVersion` rejects exactly when the requested
version is non-numeric or compares below the generator's CURRENT active
version (initially the floor 0.7.3); on acceptance the active version becomes
the given string.  The embedded method performs no network action and leaves
the state untouched on rejection. -/
theorem claim8_amended (version : Str) (st : GenState) :
    ((setDownloadVersion version st).isOk = false ↔
        compareVersionNumbers version st.libsodiumVersion = none ∨
          ∃ c, compareVersionNumbers version st.libsodiumVersion = some c ∧ c < 0) ∧
      ∀ st2, (setDownloadVersion version st).toOption = some st2 →
        st2 = { st with libsodiumVersion := version } := by
  cases h : compareVersionNumbers version st.libsodiumVersion with
  | none =>
    constructor
    · simp [setDownloadVersion, h, Except.isOk, Except.toBool]
    · intro st2 h2
      simp [setDownloadVersion, h, Except.toOption] at h2
  | some c =>
    by_cases hc : c < 0
    · constructor
      · simp [setDownloadVersion, h, hc, Except.isOk, Except.toBool]
      · intro st2 h2
        simp [setDownloadVersion, h, hc, Except.toOption] at h2
    · constructor
      · simp [setDownloadVersion, h, hc, Except.isOk, Except.toBool]
      · intro st2 h2
        simp [setDownloadVersion, h, hc, Except.toOption] at h2
        exact h2.symm

/-- Witness for C8 amended at the initial state. -/
theorem claim8_witness :
    ({ outputFileOrDir := S "/out", libsodiumVersion := S "0.8.0" } : GenState)
      = { initialState (S "/out") with libsodiumVersion := S "0.8.0" } :=
  (claim8_amended (S "0.8.0") (initialState (S "/out"))).2
    { outputFileOrDir := S "/out", libsodiumVersion := S "0.8.0" } (by decide)

/-- C9 (counterexample): with a directory output target, a second `generate`
call of the other variant on the same instance writes to the file resolved by
the FIRST call, not to the file carrying the second call's variant suffix. -/
theorem claim9_counterexample :
    ((generate [] emptyCatalog (fun p => p == S "/out") false (initialState (S "/out"))).2.path
        = S "/out/libsodium-wrappers.d.ts") ∧
      ((generate [] emptyCatalog (fun p => p == S "/out") true
          (generate [] emptyCatalog (fun p => p == S "/out") false
            (initialState (S "/out"))).1).2.path
        = S "/out/libsodium-wrappers.d.ts") ∧
      S "/out/libsodium-wrappers.d.ts" ≠ pathResolve (S "/out") (fileNameFor true) := by
  decide

/-- C9 (amended): a `generate` call whose current output target is a
directory writes the variant-suffixed declaration file inside it and rebinds
the output target to that file; a call whose current target is not a
directory writes to the target as-is — so later calls on the same instance
reuse the path resolved by the first call regardless of their variant. -/
theorem claim9_amended (excl : List Str) (cat : Catalog) (isDir : Str → Bool)
    (sumo : Bool) (st : GenState) :
    (isDir st.outputFileOrDir = true →
       (generate excl cat isDir sumo st).2.path
           = pathResolve st.outputFileOrDir (fileNameFor sumo) ∧
         (generate excl cat isDir sumo st).1.outputFileOrDir
           = pathResolve st.outputFileOrDir (fileNameFor sumo)) ∧
      (isDir st.outputFileOrDir = false →
        (generate excl cat isDir sumo st).2.path = st.outputFileOrDir ∧
          (generate excl cat isDir sumo st).1.outputFileOrDir = st.outputFileOrDir) ∧
      (generate excl cat isDir sumo st).2.contents
        = buildData excl cat st.libsodiumVersion sumo := by
  refine ⟨fun h => ⟨by simp [generate, h], by simp [generate, h]⟩,
    fun h => ⟨by simp [generate, h], by simp [generate, h]⟩, by simp [generate]⟩

/-- Witness for C9 amended on a concrete directory target. -/
theorem claim9_witness :
    (generate [] emptyCatalog (fun p => p == S "/out") false (initialState (S "/out"))).2.path
      = pathResolve (S "/out") (fileNameFor false) :=
  ((claim9_amended [] emptyCatalog (fun p => p == S "/out") false
      (initialState (S "/out"))).1 (by decide)).1

end LibsodiumTypeGenerator
